import Mathlib

/-!
Verification of the cobalt lexer (src/cobalt/lexer.cpp) against its
natural-language specification.

The source text is modelled as a `List Char`, the cursor as a `Nat` offset
(the C++ `_cursor` iterator, with `_source.begin()` at offset 0 and
`_source.end()` at offset `source.length`).  A token span is modelled as a
start offset plus a length.  The C locale classification functions
`isspace`, `isalpha`, `isdigit` are modelled on ASCII code points, which is
the behavior the source relies on.
-/

set_option autoImplicit false

/-- Modelled from the spec: the closed TokenKind tag set (the enum is
declared in lexer.hpp, which is not under src/; the spec lists its
eighteen alternatives). -/
inductive TokenType where
  | EndOfLine
  | ParameterListBegin
  | ParameterListEnd
  | FunctionBodyBegin
  | FunctionBodyEnd
  | PropertyBodyBegin
  | PropertyBodyEnd
  | Equal
  | TypeConstraintSeparator
  | Separator
  | Return
  | Break
  | Continue
  | Identifier
  | LiteralInt
  | LiteralFloat
  | EndOfFile
  | Unexpected
  deriving DecidableEq, Repr

/-- Modelled from the spec: a Token is a kind plus a borrowed span into the
source buffer (start offset and length); the struct itself is declared in
lexer.hpp, which is not under src/. -/
structure Token where
  kind : TokenType
  start : Nat
  length : Nat
  deriving DecidableEq, Repr

/-- Modelled from the spec: the out-of-band semantic value channel (the
`value` member assigned in lexer.cpp lines 161, 173 and 178; its variant
type over none/string/integer/float is declared in lexer.hpp, which is not
under src/).  The float alternative stores the text passed to std::stod;
the IEEE rounding of std::stod is not modelled, and no claim concerns the
numeric value of floats. -/
inductive SemValue where
  | none
  | str (s : List Char)
  | int (n : Int)
  | float (text : List Char)
  deriving DecidableEq, Repr

/-- The lexer state: the immutable source buffer, the cursor offset, and
the semantic value member (lexer.cpp lines 110-113 initialise the cursor to
the start of the source). -/
structure Lexer where
  source : List Char
  cursor : Nat
  value : SemValue
  deriving DecidableEq, Repr

/-- `Lexer::Lexer(std::string_view source)` (lexer.cpp lines 110-113). -/
def initLexer (src : List Char) : Lexer :=
  { source := src, cursor := 0, value := SemValue.none }

/-- C `isspace` on ASCII: space (32) and the five control characters 9-13
(tab, newline, vertical tab, form feed, carriage return). -/
def isspace (c : Char) : Bool :=
  decide (c.toNat = 32) || (decide (9 ≤ c.toNat) && decide (c.toNat ≤ 13))

/-- C `isalpha` on ASCII: the ranges A-Z (65-90) and a-z (97-122). -/
def isalpha (c : Char) : Bool :=
  (decide (65 ≤ c.toNat) && decide (c.toNat ≤ 90))
    || (decide (97 ≤ c.toNat) && decide (c.toNat ≤ 122))

/-- C `isdigit` on ASCII: the range 0-9 (48-57). -/
def isdigit (c : Char) : Bool :=
  decide (48 ≤ c.toNat) && decide (c.toNat ≤ 57)

/-- `Lexer::is_first_identifier_char` (lexer.cpp lines 22-25). -/
def is_first_identifier_char (c : Char) : Bool :=
  isalpha c

/-- `Lexer::is_identifier_char` (lexer.cpp lines 27-31). -/
def is_identifier_char (c : Char) : Bool :=
  is_first_identifier_char c || isdigit c

/-- The byte at offset `i`, i.e. `*_cursor` with the cursor at `i`.  Every
dereference modelled through `charAt` is guarded by a bounds check in the
source (the `!eof()` guard of the skip loops, or the eof check in
`next_token`), so the default is never observable there. -/
def charAt (src : List Char) (i : Nat) : Char :=
  src.getD i ' '

/-- `Lexer::match(std::string_view)` (lexer.cpp lines 38-42): true iff at
least `lit.length` bytes remain at `cursor` and they equal `lit`. -/
def matchSV (src : List Char) (cursor : Nat) (lit : List Char) : Bool :=
  decide (lit.length ≤ src.length - cursor)
    && decide ((src.drop cursor).take lit.length = lit)

/-- `Lexer::match(char)` (lexer.cpp lines 44-47): `return *_cursor == c;`.
The unguarded dereference is modelled with `List.get?`: a `none` result
marks the read the C++ performs one past the end of the buffer (an
out-of-bounds access). -/
def matchChar (lx : Lexer) (c : Char) : Option Bool :=
  (lx.source.get? lx.cursor).map (fun b => decide (b = c))

/-- The loop body of `Lexer::skip_until` (lexer.cpp lines 49-55):
`while (!eof() && !stop_condition()) ++_cursor;`.  The fuel argument is
`src.length - cursor` at the first call and stays equal to
`src.length - cursor` throughout, so the structural recursion performs
exactly the iterations of the C++ loop.  The stop condition is a predicate
on the cursor offset, since the C++ closures read `*_cursor` (and, for the
string form, the following bytes) at the current cursor. -/
def skipUntilAux (src : List Char) (stop : Nat → Bool) : Nat → Nat → Nat
  | 0, c => c
  | fuel + 1, c =>
    if c < src.length then
      (if stop c then c else skipUntilAux src stop fuel (c + 1))
    else c

/-- `Lexer::skip_until` (lexer.cpp lines 49-55), returning the cursor at
which the loop stops. -/
def skip_until (src : List Char) (stop : Nat → Bool) (c : Nat) : Nat :=
  skipUntilAux src stop (src.length - c) c

/-- `Lexer::skip(size_t count)` (lexer.cpp lines 85-91):
`if (!eof()) _cursor += count;`. -/
def skip (lx : Lexer) (count : Nat) : Lexer :=
  if lx.cursor = lx.source.length then lx
  else { lx with cursor := lx.cursor + count }

/-- `Lexer::skip_beyond(std::string_view)` (lexer.cpp lines 79-83):
`skip_until(stop_string); skip(stop_string.size());`. -/
def skip_beyond_sv (lx : Lexer) (lit : List Char) : Lexer :=
  let lx1 : Lexer :=
    { lx with cursor := skip_until lx.source (fun i => matchSV lx.source i lit) lx.cursor }
  skip lx1 lit.length

/-- `Lexer::try_tokenize` (lexer.cpp lines 93-103). -/
def try_tokenize (lx : Lexer) (name : List Char) (type : TokenType) :
    Option (Token × Lexer) :=
  if matchSV lx.source lx.cursor name then
    some ({ kind := type, start := lx.cursor, length := name.length }, skip lx name.length)
  else none

/-- The `basic_tokens` table (lexer.cpp lines 9-20). -/
def basic_tokens : List (List Char × TokenType) :=
  [(['\n'], TokenType.EndOfLine),
   (['('], TokenType.ParameterListBegin),
   ([')'], TokenType.ParameterListEnd),
   (['\x7b'], TokenType.FunctionBodyBegin),
   (['\x7d'], TokenType.FunctionBodyEnd),
   (['['], TokenType.PropertyBodyBegin),
   ([']'], TokenType.PropertyBodyEnd),
   (['='], TokenType.Equal),
   ([':'], TokenType.TypeConstraintSeparator),
   ([','], TokenType.Separator)]

/-- The `for (auto& t : basic_tokens)` loop of `next_token` (lexer.cpp
lines 135-141): the first table entry whose literal matches wins. -/
def run_basic (lx : Lexer) : List (List Char × TokenType) → Option (Token × Lexer)
  | [] => Option.none
  | p :: rest =>
    match try_tokenize lx p.1 p.2 with
    | some r => some r
    | Option.none => run_basic lx rest

def tokSlashSlash : List Char := ['/', '/']
def tokSlashStar : List Char := ['/', '*']
def tokStarSlash : List Char := ['*', '/']
def tokDot : List Char := ['.']
def kwReturn : List Char := ['r', 'e', 't', 'u', 'r', 'n']
def kwBreak : List Char := ['b', 'r', 'e', 'a', 'k']
def kwContinue : List Char := ['c', 'o', 'n', 't', 'i', 'n', 'u', 'e']

/-- The value of a run of decimal digits (what std::stoll computes on a
digit-only string). -/
def digitsToNat (s : List Char) : Nat :=
  s.foldl (fun a c => a * 10 + (c.toNat - 48)) 0

/-- `std::stoll` on the consumed digit run (lexer.cpp line 178): the
digits are nonnegative with no sign, so the conversion throws
`std::out_of_range` — modelled as `.error ()`, an abort of the call —
exactly when the value exceeds `LLONG_MAX = 2^63 - 1`. -/
def stoll (s : List Char) : Except Unit Int :=
  if digitsToNat s ≤ 9223372036854775807 then Except.ok (Int.ofNat (digitsToNat s))
  else Except.error ()

/-- Line 117 of `next_token`:
`skip_until([&]{ return !isspace(*_cursor); });`. -/
def ws_skip (lx : Lexer) : Lexer :=
  { lx with cursor := skip_until lx.source (fun i => !isspace (charAt lx.source i)) lx.cursor }

/-- Lines 119-126 of `next_token`: the line-comment and block-comment
skips.  The line-comment branch is `skip_until('\n')`, which stops at (and
does not consume) the newline. -/
def comment_skip (lx : Lexer) : Lexer :=
  if matchSV lx.source lx.cursor tokSlashSlash then
    { lx with cursor := skip_until lx.source (fun i => decide (charAt lx.source i = '\n')) lx.cursor }
  else if matchSV lx.source lx.cursor tokSlashStar then
    skip_beyond_sv lx tokStarSlash
  else lx

/-- Lines 143-163 of `next_token`: the identifier/keyword branch, entered
with `token_begin` equal to the cursor.  `make_view(token_begin, _cursor)`
is the consumed slice. -/
def lex_identifier (lx : Lexer) (token_begin : Nat) : Token × Lexer :=
  let lx1 : Lexer :=
    { lx with cursor := skip_until lx.source (fun i => !is_identifier_char (charAt lx.source i)) lx.cursor }
  let view : List Char := (lx1.source.drop token_begin).take (lx1.cursor - token_begin)
  if view = kwReturn then
    ({ kind := TokenType.Return, start := token_begin, length := lx1.cursor - token_begin }, lx1)
  else if view = kwBreak then
    ({ kind := TokenType.Break, start := token_begin, length := lx1.cursor - token_begin }, lx1)
  else if view = kwContinue then
    ({ kind := TokenType.Continue, start := token_begin, length := lx1.cursor - token_begin }, lx1)
  else
    ({ kind := TokenType.Identifier, start := token_begin, length := lx1.cursor - token_begin },
     { lx1 with value := SemValue.str view })

/-- Lines 165-181 of `next_token`: the numeric-literal branch.  The
trailing `match(".")` resolves to the string_view overload (a string
literal converts to `std::string_view`, not to `char`), so it is the
bounds-checked match.  A `std::stoll` overflow propagates as `.error`. -/
def lex_number (lx : Lexer) (token_begin : Nat) : Except Unit (Token × Lexer) :=
  let lx1 : Lexer :=
    { lx with cursor := skip_until lx.source (fun i => !isdigit (charAt lx.source i)) lx.cursor }
  if matchSV lx1.source lx1.cursor tokDot then
    let lx2 : Lexer := skip lx1 1
    let lx3 : Lexer :=
      { lx2 with cursor := skip_until lx2.source (fun i => !isdigit (charAt lx2.source i)) lx2.cursor }
    let text : List Char := (lx3.source.drop token_begin).take (lx3.cursor - token_begin)
    Except.ok
      ({ kind := TokenType.LiteralFloat, start := token_begin, length := lx3.cursor - token_begin },
       { lx3 with value := SemValue.float text })
  else
    let text : List Char := (lx1.source.drop token_begin).take (lx1.cursor - token_begin)
    match stoll text with
    | Except.ok n =>
      Except.ok
        ({ kind := TokenType.LiteralInt, start := token_begin, length := lx1.cursor - token_begin },
         { lx1 with value := SemValue.int n })
    | Except.error e => Except.error e

/-- `Lexer::next_token` (lexer.cpp lines 115-186).  The result is the
returned token paired with the updated lexer state; `.error` marks the
abort caused by an uncaught `std::stoll` out_of_range. -/
def next_token (lx : Lexer) : Except Unit (Token × Lexer) :=
  let lx2 : Lexer := comment_skip (ws_skip lx)
  if lx2.cursor = lx2.source.length then
    Except.ok ({ kind := TokenType.EndOfFile, start := lx2.cursor, length := 1 }, lx2)
  else
    match run_basic lx2 basic_tokens with
    | some r => Except.ok r
    | Option.none =>
      if is_first_identifier_char (charAt lx2.source lx2.cursor) then
        Except.ok (lex_identifier lx2 lx2.cursor)
      else if isdigit (charAt lx2.source lx2.cursor) then
        lex_number lx2 lx2.cursor
      else
        Except.ok ({ kind := TokenType.Unexpected, start := lx2.cursor, length := 1 },
                   { lx2 with cursor := lx2.cursor + 1 })

/-- One driver step: the state after one `next_token` call (on an abort
the state is left as it was, the call never returns in the C++). -/
def stepLexer (lx : Lexer) : Lexer :=
  match next_token lx with
  | Except.ok pr => pr.2
  | Except.error _ => lx

/-- The state after `n` successive `next_token` calls starting from `lx`. -/
def runLexer (lx : Lexer) : Nat → Lexer
  | 0 => lx
  | n + 1 => stepLexer (runLexer lx n)

/-! ### Lemmas about the cursor primitives -/

theorem skipUntilAux_ge (src : List Char) (stop : Nat → Bool) :
    ∀ fuel c, c ≤ skipUntilAux src stop fuel c := by
  intro fuel
  induction fuel with
  | zero => intro c; simp [skipUntilAux]
  | succ n ih =>
    intro c
    simp only [skipUntilAux]
    split
    · split
      · exact Nat.le_refl c
      · exact Nat.le_trans (Nat.le_succ c) (ih (c + 1))
    · exact Nat.le_refl c

theorem skipUntilAux_le (src : List Char) (stop : Nat → Bool) :
    ∀ fuel c, c ≤ src.length → skipUntilAux src stop fuel c ≤ src.length := by
  intro fuel
  induction fuel with
  | zero => intro c h; simpa [skipUntilAux] using h
  | succ n ih =>
    intro c h
    simp only [skipUntilAux]
    split
    · split
      · exact h
      · exact ih (c + 1) (by omega)
    · exact h

theorem skipUntilAux_eq (src : List Char) (stop : Nat → Bool) :
    ∀ fuel c k, c ≤ k → k ≤ src.length → src.length ≤ c + fuel →
      (∀ i, c ≤ i → i < k → stop i = false) →
      (k = src.length ∨ stop k = true) →
      skipUntilAux src stop fuel c = k := by
  intro fuel
  induction fuel with
  | zero =>
    intro c k h1 h2 h3 _ _
    have hck : c = k := by omega
    simp [skipUntilAux, hck]
  | succ n ih =>
    intro c k h1 h2 h3 hmid hk
    by_cases hclen : c < src.length
    · by_cases hstop : stop c = true
      · have hck : c = k := by
          by_contra hne
          have hlt : c < k := by omega
          have hf := hmid c (Nat.le_refl c) hlt
          rw [hf] at hstop
          exact Bool.false_ne_true hstop
        subst hck
        simp [skipUntilAux, hclen, hstop]
      · have hlt : c < k := by
          rcases Nat.eq_or_lt_of_le h1 with he | hl
          · exfalso
            rcases hk with hke | hks
            · omega
            · rw [← he] at hks
              exact hstop hks
          · exact hl
        have hred : skipUntilAux src stop (n + 1) c = skipUntilAux src stop n (c + 1) := by
          simp [skipUntilAux, hclen, hstop]
        rw [hred]
        exact ih (c + 1) k hlt h2 (by omega) (fun i hi1 hi2 => hmid i (by omega) hi2) hk
    · have hck : c = k := by omega
      subst hck
      simp [skipUntilAux, hclen]

theorem skipUntilAux_stop (src : List Char) (stop : Nat → Bool) :
    ∀ fuel c, src.length ≤ c + fuel → c ≤ src.length →
      skipUntilAux src stop fuel c ≠ src.length →
      stop (skipUntilAux src stop fuel c) = true := by
  intro fuel
  induction fuel with
  | zero =>
    intro c h1 h2 h3
    exfalso
    exact h3 (by simp [skipUntilAux]; omega)
  | succ n ih =>
    intro c h1 h2 h3
    by_cases hclen : c < src.length
    · by_cases hstop : stop c = true
      · simp [skipUntilAux, hclen, hstop]
      · have hred : skipUntilAux src stop (n + 1) c = skipUntilAux src stop n (c + 1) := by
          simp [skipUntilAux, hclen, hstop]
        rw [hred]
        rw [hred] at h3
        exact ih (c + 1) (by omega) (by omega) h3
    · exfalso
      apply h3
      simp [skipUntilAux, hclen]
      omega

theorem skip_until_ge (src : List Char) (stop : Nat → Bool) (c : Nat) :
    c ≤ skip_until src stop c :=
  skipUntilAux_ge src stop (src.length - c) c

theorem skip_until_le (src : List Char) (stop : Nat → Bool) (c : Nat)
    (h : c ≤ src.length) : skip_until src stop c ≤ src.length :=
  skipUntilAux_le src stop (src.length - c) c h

theorem skip_until_eq (src : List Char) (stop : Nat → Bool) (c k : Nat)
    (h1 : c ≤ k) (h2 : k ≤ src.length)
    (hmid : ∀ i, c ≤ i → i < k → stop i = false)
    (hk : k = src.length ∨ stop k = true) :
    skip_until src stop c = k :=
  skipUntilAux_eq src stop (src.length - c) c k h1 h2 (by omega) hmid hk

theorem skip_until_stop (src : List Char) (stop : Nat → Bool) (c : Nat)
    (hc : c ≤ src.length) (h : skip_until src stop c ≠ src.length) :
    stop (skip_until src stop c) = true :=
  skipUntilAux_stop src stop (src.length - c) c (by omega) hc h

/-! ### Lemmas about `matchSV` and `charAt` -/

theorem matchSV_elim (src : List Char) (c : Nat) (lit : List Char)
    (h : matchSV src c lit = true) :
    lit.length ≤ src.length - c ∧ (src.drop c).take lit.length = lit := by
  simpa [matchSV] using h

theorem charAt_of_drop (src : List Char) (c : Nat) (a : Char) (l : List Char)
    (h : src.drop c = a :: l) : charAt src c = a := by
  induction src generalizing c with
  | nil => simp at h
  | cons b s ih =>
    cases c with
    | zero =>
      simp at h
      simp [charAt, h.1]
    | succ m =>
      simp at h
      have := ih m h
      simpa [charAt, List.getD] using this

theorem matchSV_head (src : List Char) (c : Nat) (a : Char) (t : List Char)
    (h : matchSV src c (a :: t) = true) :
    c < src.length ∧ charAt src c = a := by
  obtain ⟨h1, h2⟩ := matchSV_elim src c (a :: t) h
  have hc : c < src.length := by
    simp only [List.length_cons] at h1
    omega
  rcases he : src.drop c with _ | ⟨b, l⟩
  · rw [he] at h2
    simp at h2
  · rw [he] at h2
    simp only [List.length_cons, List.take_succ_cons] at h2
    have hb : b = a := by
      injection h2
    exact ⟨hc, charAt_of_drop src c a l (by rw [he, hb])⟩

theorem matchSV_false_of_head (src : List Char) (c : Nat) (a : Char) (t : List Char)
    (h : charAt src c ≠ a) : matchSV src c (a :: t) = false := by
  cases hm : matchSV src c (a :: t) with
  | false => rfl
  | true => exact absurd (matchSV_head src c a t hm).2 h

theorem matchSV_end (src : List Char) (c : Nat) (lit : List Char)
    (hc : src.length ≤ c) (hlit : lit ≠ []) : matchSV src c lit = false := by
  have hpos : 0 < lit.length := List.length_pos.mpr hlit
  have hno : ¬ (lit.length ≤ src.length - c) := by omega
  simp [matchSV, hno]

theorem charAt_mem (src : List Char) (i : Nat) (h : i < src.length) :
    charAt src i ∈ src := by
  induction src generalizing i with
  | nil => simp at h
  | cons a l ih =>
    cases i with
    | zero => simp [charAt]
    | succ m =>
      simp only [List.length_cons] at h
      have := ih m (by omega)
      simp only [charAt, List.getD_cons_succ]
      exact List.mem_cons_of_mem a this

theorem charAt_append_left (l r : List Char) (i : Nat) (h : i < l.length) :
    charAt (l ++ r) i = charAt l i := by
  induction l generalizing i with
  | nil => simp at h
  | cons a s ih =>
    cases i with
    | zero => simp [charAt]
    | succ m =>
      simp only [List.length_cons] at h
      simp only [charAt, List.cons_append, List.getD_cons_succ]
      exact ih m (by omega)

theorem charAt_append_right (l : List Char) (a : Char) (r : List Char) :
    charAt (l ++ a :: r) l.length = a := by
  induction l with
  | nil => simp [charAt]
  | cons b s ih =>
    simpa [charAt, List.getD_cons_succ] using ih

/-! ### ASCII classification facts -/

theorem isdigit_not_isspace (c : Char) (h : isdigit c = true) : isspace c = false := by
  simp [isdigit] at h
  simp [isspace]
  omega

theorem isalpha_not_isspace (c : Char) (h : isalpha c = true) : isspace c = false := by
  simp [isalpha] at h
  simp [isspace]
  omega

theorem isdigit_not_isalpha (c : Char) (h : isdigit c = true) : isalpha c = false := by
  simp [isdigit] at h
  simp [isalpha]
  omega

theorem is_identifier_char_not_isspace (c : Char)
    (h : is_identifier_char c = true) : isspace c = false := by
  simp [is_identifier_char, is_first_identifier_char, isalpha, isdigit] at h
  simp [isspace]
  omega

/-! ### State-shape lemmas for the composite operations -/

theorem skip_source (lx : Lexer) (n : Nat) : (skip lx n).source = lx.source := by
  unfold skip
  split <;> rfl

theorem skip_value (lx : Lexer) (n : Nat) : (skip lx n).value = lx.value := by
  unfold skip
  split <;> rfl

theorem ws_skip_source (lx : Lexer) : (ws_skip lx).source = lx.source := rfl

theorem ws_skip_value (lx : Lexer) : (ws_skip lx).value = lx.value := rfl

theorem ws_skip_cursor_ge (lx : Lexer) : lx.cursor ≤ (ws_skip lx).cursor :=
  skip_until_ge _ _ _

theorem ws_skip_cursor_le (lx : Lexer) (h : lx.cursor ≤ lx.source.length) :
    (ws_skip lx).cursor ≤ lx.source.length :=
  skip_until_le _ _ _ h

theorem comment_skip_source (lx : Lexer) : (comment_skip lx).source = lx.source := by
  unfold comment_skip skip_beyond_sv
  split
  · rfl
  split
  · exact skip_source _ _
  · rfl

theorem comment_skip_value (lx : Lexer) : (comment_skip lx).value = lx.value := by
  unfold comment_skip skip_beyond_sv
  split
  · rfl
  split
  · exact skip_value _ _
  · rfl

theorem comment_skip_cursor (lx : Lexer) (h : lx.cursor ≤ lx.source.length) :
    lx.cursor ≤ (comment_skip lx).cursor ∧ (comment_skip lx).cursor ≤ lx.source.length := by
  unfold comment_skip
  split
  · exact ⟨skip_until_ge _ _ _, skip_until_le _ _ _ h⟩
  split
  · unfold skip_beyond_sv
    set p := skip_until lx.source (fun i => matchSV lx.source i tokStarSlash) lx.cursor with hp
    have hge : lx.cursor ≤ p := skip_until_ge _ _ _
    have hle : p ≤ lx.source.length := skip_until_le _ _ _ h
    by_cases hpe : p = lx.source.length
    · simp [skip, hpe]
      omega
    · have hstop : matchSV lx.source p tokStarSlash = true := by
        have := skip_until_stop lx.source (fun i => matchSV lx.source i tokStarSlash) lx.cursor h
          (by rw [← hp]; exact hpe)
        simpa [← hp] using this
      have hrem := (matchSV_elim _ _ _ hstop).1
      simp only [tokStarSlash, List.length_cons, List.length_nil] at hrem
      simp [skip, hpe, tokStarSlash]
      constructor
      · omega
      · omega
  · exact ⟨Nat.le_refl _, h⟩

theorem run_basic_state (lx : Lexer) :
    ∀ (l : List (List Char × TokenType)) (t : Token) (lx' : Lexer),
      run_basic lx l = some (t, lx') →
      lx'.source = lx.source ∧ lx'.value = lx.value ∧ lx.cursor ≤ lx'.cursor ∧
        (lx.cursor ≤ lx.source.length → lx'.cursor ≤ lx.source.length) := by
  intro l
  induction l with
  | nil =>
    intro t lx' h
    simp [run_basic] at h
  | cons p rest ih =>
    intro t lx' h
    rw [run_basic] at h
    by_cases hm : matchSV lx.source lx.cursor p.1 = true
    · rw [try_tokenize, if_pos hm] at h
      simp at h
      obtain ⟨h1, h2⟩ := h
      have hrem := (matchSV_elim _ _ _ hm).1
      subst h2
      refine ⟨skip_source _ _, skip_value _ _, ?_, ?_⟩
      · unfold skip
        split
        · exact Nat.le_refl _
        · simp
      · intro hcl
        unfold skip
        split
        · exact hcl
        · simp
          omega
    · rw [try_tokenize, if_neg hm] at h
      simp at h
      exact ih t lx' h

theorem try_tokenize_result (lx : Lexer) (name : List Char) (ty : TokenType)
    (t : Token) (lx' : Lexer) (h : try_tokenize lx name ty = some (t, lx')) :
    t.kind = ty := by
  unfold try_tokenize at h
  split at h
  · simp at h
    rw [← h.1]
  · simp at h

theorem run_basic_kind_mem (lx : Lexer) :
    ∀ (l : List (List Char × TokenType)) (t : Token) (lx' : Lexer),
      run_basic lx l = some (t, lx') → t.kind ∈ l.map Prod.snd := by
  intro l
  induction l with
  | nil =>
    intro t lx' h
    simp [run_basic] at h
  | cons p rest ih =>
    intro t lx' h
    rw [run_basic] at h
    rcases hm : try_tokenize lx p.1 p.2 with _ | r
    · rw [hm] at h
      simp at h
      simp only [List.map_cons, List.mem_cons]
      exact Or.inr (ih t lx' h)
    · rw [hm] at h
      simp at h
      rw [h] at hm
      simp only [List.map_cons, List.mem_cons]
      exact Or.inl (try_tokenize_result lx p.1 p.2 t lx' hm)

theorem lex_identifier_state (lx : Lexer) (tb : Nat) :
    (lex_identifier lx tb).2.source = lx.source ∧
      lx.cursor ≤ (lex_identifier lx tb).2.cursor ∧
      (lx.cursor ≤ lx.source.length → (lex_identifier lx tb).2.cursor ≤ lx.source.length) := by
  simp only [lex_identifier]
  have hge := skip_until_ge lx.source (fun i => !is_identifier_char (charAt lx.source i)) lx.cursor
  split
  · exact ⟨rfl, hge, fun h => skip_until_le _ _ _ h⟩
  split
  · exact ⟨rfl, hge, fun h => skip_until_le _ _ _ h⟩
  split
  · exact ⟨rfl, hge, fun h => skip_until_le _ _ _ h⟩
  · exact ⟨rfl, hge, fun h => skip_until_le _ _ _ h⟩

theorem lex_identifier_kind_cases (lx : Lexer) (tb : Nat) :
    (lex_identifier lx tb).1.kind = TokenType.Return ∨
      (lex_identifier lx tb).1.kind = TokenType.Break ∨
      (lex_identifier lx tb).1.kind = TokenType.Continue ∨
      (lex_identifier lx tb).1.kind = TokenType.Identifier := by
  simp only [lex_identifier]
  split
  · simp
  split
  · simp
  split
  · simp
  · simp

theorem lex_identifier_value (lx : Lexer) (tb : Nat) :
    (lex_identifier lx tb).1.kind = TokenType.Identifier ∨
      (lex_identifier lx tb).2.value = lx.value := by
  simp only [lex_identifier]
  split
  · exact Or.inr rfl
  split
  · exact Or.inr rfl
  split
  · exact Or.inr rfl
  · exact Or.inl rfl

theorem lex_number_kind (lx : Lexer) (tb : Nat) (t : Token) (lx' : Lexer)
    (h : lex_number lx tb = Except.ok (t, lx')) :
    t.kind = TokenType.LiteralFloat ∨ t.kind = TokenType.LiteralInt := by
  simp only [lex_number] at h
  split at h
  · simp at h
    rw [← h.1]
    simp
  · split at h
    · simp at h
      rw [← h.1]
      simp
    · simp at h

theorem lex_number_state (lx : Lexer) (tb : Nat) (t : Token) (lx' : Lexer)
    (hc : lx.cursor ≤ lx.source.length)
    (h : lex_number lx tb = Except.ok (t, lx')) :
    lx'.source = lx.source ∧ lx.cursor ≤ lx'.cursor ∧ lx'.cursor ≤ lx.source.length := by
  simp only [lex_number] at h
  have hge1 := skip_until_ge lx.source (fun i => !isdigit (charAt lx.source i)) lx.cursor
  have hle1 := skip_until_le lx.source (fun i => !isdigit (charAt lx.source i)) lx.cursor hc
  split at h
  · rename_i hdot
    -- the '.' matched at the end of the digit run, so that position is in bounds
    have hlt := (matchSV_head _ _ '.' [] hdot).1
    simp only [skip] at h
    split at h
    · simp at h
      omega
    · simp only at h
      simp at h
      rw [← h.2]
      have hge2 := skip_until_ge lx.source (fun i => !isdigit (charAt lx.source i))
        (skip_until lx.source (fun i => !isdigit (charAt lx.source i)) lx.cursor + 1)
      have hle2 := skip_until_le lx.source (fun i => !isdigit (charAt lx.source i))
        (skip_until lx.source (fun i => !isdigit (charAt lx.source i)) lx.cursor + 1) (by omega)
      refine ⟨rfl, ?_, ?_⟩
      · show lx.cursor ≤ skip_until lx.source (fun i => !isdigit (charAt lx.source i))
          (skip_until lx.source (fun i => !isdigit (charAt lx.source i)) lx.cursor + 1)
        omega
      · show skip_until lx.source (fun i => !isdigit (charAt lx.source i))
          (skip_until lx.source (fun i => !isdigit (charAt lx.source i)) lx.cursor + 1) ≤ lx.source.length
        exact hle2
  · split at h
    · simp at h
      rw [← h.2]
      exact ⟨rfl, hge1, hle1⟩
    · simp at h

/-! ### Lemmas about `next_token` as a whole -/

theorem run_basic_none (lx : Lexer) (l : List (List Char × TokenType))
    (h : ∀ p ∈ l, matchSV lx.source lx.cursor p.1 = false) :
    run_basic lx l = Option.none := by
  induction l with
  | nil => rfl
  | cons p rest ih =>
    have hp := h p (List.mem_cons_self p rest)
    rw [run_basic, try_tokenize, if_neg (by simp [hp])]
    exact ih (fun q hq => h q (List.mem_cons_of_mem p hq))

/-- No entry of the fixed-token table starts with a letter or a digit, so
when the cursor is on an identifier character the whole table fails. -/
theorem run_basic_none_ident (lx : Lexer)
    (h : is_identifier_char (charAt lx.source lx.cursor) = true) :
    run_basic lx basic_tokens = Option.none := by
  apply run_basic_none
  intro p hp
  fin_cases hp <;>
  · apply matchSV_false_of_head
    intro he
    rw [he] at h
    revert h
    decide

theorem ws_skip_at_end (lx : Lexer) (h : lx.cursor = lx.source.length) :
    ws_skip lx = lx := by
  cases lx with
  | mk s c v =>
    simp at h
    unfold ws_skip skip_until
    simp [h, skipUntilAux]

theorem comment_skip_at_end (lx : Lexer) (h : lx.cursor = lx.source.length) :
    comment_skip lx = lx := by
  have h1 : matchSV lx.source lx.cursor tokSlashSlash = false :=
    matchSV_end _ _ _ (by omega) (by simp [tokSlashSlash])
  have h2 : matchSV lx.source lx.cursor tokSlashStar = false :=
    matchSV_end _ _ _ (by omega) (by simp [tokSlashStar])
  unfold comment_skip
  simp [h1, h2]

/-- A lexer whose cursor is at the end of the buffer returns `EndOfFile`
and does not move. -/
theorem next_token_at_eof (lx : Lexer) (h : lx.cursor = lx.source.length) :
    next_token lx =
      Except.ok ({ kind := TokenType.EndOfFile, start := lx.cursor, length := 1 }, lx) := by
  unfold next_token
  rw [ws_skip_at_end lx h, comment_skip_at_end lx h]
  simp [h]

/-- The only branch of `next_token` that produces `EndOfFile` is the eof
branch, whose resulting state has the cursor at the end of the buffer. -/
theorem next_token_eof_cases (lx : Lexer) (t : Token) (lx' : Lexer)
    (h : next_token lx = Except.ok (t, lx'))
    (hk : t.kind = TokenType.EndOfFile) :
    lx'.cursor = lx'.source.length ∧
      t = { kind := TokenType.EndOfFile, start := lx'.cursor, length := 1 } := by
  simp only [next_token] at h
  split at h
  · rename_i heq
    simp at h
    obtain ⟨h1, h2⟩ := h
    subst h2
    exact ⟨heq, by rw [← h1]⟩
  · rename_i hne
    exfalso
    split at h
    · rename_i r hrb
      simp at h
      rw [h] at hrb
      have hmem := run_basic_kind_mem _ basic_tokens t lx' hrb
      rw [hk] at hmem
      simp [basic_tokens] at hmem
    · rename_i hrb
      split at h
      · simp at h
        have hkc := lex_identifier_kind_cases (comment_skip (ws_skip lx))
          (comment_skip (ws_skip lx)).cursor
        rw [h] at hkc
        simp [hk] at hkc
      · split at h
        · rcases lex_number_kind _ _ _ _ h with hfl | hint
          · rw [hk] at hfl
            simp at hfl
          · rw [hk] at hint
            simp at hint
        · simp at h
          rw [← h.1] at hk
          simp at hk

/-- Full state evolution of one `next_token` call: the source is
untouched, the cursor never moves backwards and stays within the
buffer. -/
theorem next_token_state (lx : Lexer) (t : Token) (lx' : Lexer)
    (hc : lx.cursor ≤ lx.source.length)
    (h : next_token lx = Except.ok (t, lx')) :
    lx'.source = lx.source ∧ lx.cursor ≤ lx'.cursor ∧ lx'.cursor ≤ lx.source.length := by
  have hsrc2 : (comment_skip (ws_skip lx)).source = lx.source := by
    rw [comment_skip_source, ws_skip_source]
  have hcs2 := comment_skip_cursor (ws_skip lx)
    (by rw [ws_skip_source]; exact ws_skip_cursor_le lx hc)
  have hge2 : lx.cursor ≤ (comment_skip (ws_skip lx)).cursor :=
    Nat.le_trans (ws_skip_cursor_ge lx) hcs2.1
  have hle2 : (comment_skip (ws_skip lx)).cursor ≤ lx.source.length := by
    have := hcs2.2
    rwa [ws_skip_source] at this
  simp only [next_token] at h
  split at h
  · simp at h
    rw [← h.2]
    exact ⟨hsrc2, hge2, hle2⟩
  · rename_i hne
    split at h
    · rename_i r hrb
      simp at h
      rw [h] at hrb
      have hst := run_basic_state (comment_skip (ws_skip lx)) basic_tokens t lx' hrb
      refine ⟨hst.1.trans hsrc2, Nat.le_trans hge2 hst.2.2.1, ?_⟩
      have := hst.2.2.2 (by rw [hsrc2]; exact hle2)
      rwa [hsrc2] at this
    · rename_i hrb
      split at h
      · simp at h
        have hst := lex_identifier_state (comment_skip (ws_skip lx))
          (comment_skip (ws_skip lx)).cursor
        rw [h] at hst
        refine ⟨hst.1.trans hsrc2, Nat.le_trans hge2 hst.2.1, ?_⟩
        have := hst.2.2 (by rw [hsrc2]; exact hle2)
        rwa [hsrc2] at this
      · split at h
        · have hst := lex_number_state (comment_skip (ws_skip lx))
            (comment_skip (ws_skip lx)).cursor t lx' (by rw [hsrc2]; exact hle2) h
          refine ⟨hst.1.trans hsrc2, Nat.le_trans hge2 hst.2.1, ?_⟩
          have := hst.2.2
          rwa [hsrc2] at this
        · simp at h
          rw [← h.2]
          have hlt : (comment_skip (ws_skip lx)).cursor < lx.source.length := by
            rcases Nat.eq_or_lt_of_le hle2 with he | hl
            · exact absurd (by rw [hsrc2]; exact he) hne
            · exact hl
          exact ⟨hsrc2, by simp; omega, by simp; omega⟩

theorem stepLexer_facts (lx : Lexer) (h : lx.cursor ≤ lx.source.length) :
    (stepLexer lx).source = lx.source ∧ lx.cursor ≤ (stepLexer lx).cursor ∧
      (stepLexer lx).cursor ≤ lx.source.length := by
  unfold stepLexer
  rcases hn : next_token lx with e | pr
  · exact ⟨rfl, Nat.le_refl _, h⟩
  · have := next_token_state lx pr.1 pr.2 h hn
    exact this

/-! ### Claim theorems -/

/-- C1: code-bug evidence.  For the input consisting solely of the newline
character, the first `next_token` call returns `EndOfFile` — the newline is
consumed by the generic whitespace skip (line 117) before the fixed-token
table is consulted, so the claimed `EndOfLine` token is not produced.  The
`"\n" → EndOfLine` table entry fires only when the cursor already rests on
a newline when the table is reached, which happens after a line-comment
skip: on `"//x\n"` the first call yields `EndOfLine` spanning the newline
and the second `EndOfFile`. -/
theorem newline_input_yields_eof_first :
    next_token (initLexer ['\n']) =
      Except.ok ({ kind := TokenType.EndOfFile, start := 1, length := 1 },
        { source := ['\n'], cursor := 1, value := SemValue.none }) ∧
    next_token (initLexer ['/', '/', 'x', '\n']) =
      Except.ok ({ kind := TokenType.EndOfLine, start := 3, length := 1 },
        { source := ['/', '/', 'x', '\n'], cursor := 4, value := SemValue.none }) ∧
    next_token { source := ['/', '/', 'x', '\n'], cursor := 4, value := SemValue.none } =
      Except.ok ({ kind := TokenType.EndOfFile, start := 4, length := 1 },
        { source := ['/', '/', 'x', '\n'], cursor := 4, value := SemValue.none }) :=
  ⟨rfl, rfl, rfl⟩

/-- C2: code-bug evidence.  On `"/* a */ 42"` the whitespace skip runs
before the comment skip and is not re-run afterwards, so the first call
returns an `Unexpected` token spanning the space at offset 7; only the
second call returns `LiteralInt` 42 and the third `EndOfFile`. -/
theorem block_comment_then_space_yields_unexpected :
    next_token (initLexer ['/', '*', ' ', 'a', ' ', '*', '/', ' ', '4', '2']) =
      Except.ok ({ kind := TokenType.Unexpected, start := 7, length := 1 },
        { source := ['/', '*', ' ', 'a', ' ', '*', '/', ' ', '4', '2'], cursor := 8,
          value := SemValue.none }) ∧
    next_token (Lexer.mk ['/', '*', ' ', 'a', ' ', '*', '/', ' ', '4', '2'] 8 SemValue.none) =
      Except.ok ({ kind := TokenType.LiteralInt, start := 8, length := 2 },
        { source := ['/', '*', ' ', 'a', ' ', '*', '/', ' ', '4', '2'], cursor := 10,
          value := SemValue.int 42 }) ∧
    next_token (Lexer.mk ['/', '*', ' ', 'a', ' ', '*', '/', ' ', '4', '2'] 10 (SemValue.int 42)) =
      Except.ok ({ kind := TokenType.EndOfFile, start := 10, length := 1 },
        { source := ['/', '*', ' ', 'a', ' ', '*', '/', ' ', '4', '2'], cursor := 10,
          value := SemValue.int 42 }) :=
  ⟨rfl, rfl, rfl⟩

/-- C3: code-bug evidence.  `Lexer::match(char)` dereferences the cursor
unconditionally: with the cursor at the end of the buffer the read is one
past the end (modelled as `none`, an out-of-bounds access) instead of the
claimed no-read `false`; in bounds it compares the byte at the cursor as
claimed. -/
theorem match_char_at_end_reads_out_of_bounds :
    matchChar (initLexer []) 'x' = Option.none ∧
    matchChar (initLexer ['x']) 'x' = some true ∧
    matchChar (initLexer ['y']) 'x' = some false :=
  ⟨rfl, rfl, rfl⟩

/-- C5: once `next_token` has returned `EndOfFile`, the next call returns
the same `EndOfFile` token and leaves the whole lexer state (cursor and
value included) unchanged: `EndOfFile` is an idempotent terminal state. -/
theorem eof_terminal_idempotent (lx : Lexer) (t : Token) (lx' : Lexer)
    (h : next_token lx = Except.ok (t, lx')) (hk : t.kind = TokenType.EndOfFile) :
    next_token lx' = Except.ok (t, lx') := by
  obtain ⟨hc, ht⟩ := next_token_eof_cases lx t lx' h hk
  rw [ht]
  exact next_token_at_eof lx' hc

/-- Witness for C5 at the empty input, whose first call already returns
`EndOfFile`. -/
theorem eof_terminal_idempotent_witness :
    next_token (initLexer []) =
      Except.ok ({ kind := TokenType.EndOfFile, start := 0, length := 1 }, initLexer []) :=
  eof_terminal_idempotent (initLexer [])
    { kind := TokenType.EndOfFile, start := 0, length := 1 } (initLexer []) rfl rfl

/-- C7: across every sequence of `next_token` calls on any input, the
source buffer is unchanged, the cursor always satisfies
`cursor ≤ length source`, and it never moves backwards from one call to
the next. -/
theorem cursor_monotone_and_bounded (s : List Char) (n : Nat) :
    (runLexer (initLexer s) n).source = s ∧
      (runLexer (initLexer s) n).cursor ≤ s.length ∧
      (runLexer (initLexer s) n).cursor ≤ (runLexer (initLexer s) (n + 1)).cursor := by
  induction n with
  | zero =>
    refine ⟨rfl, Nat.zero_le _, ?_⟩
    have h := stepLexer_facts (initLexer s) (Nat.zero_le _)
    exact h.2.1
  | succ n ih =>
    obtain ⟨hsrc, hle, _⟩ := ih
    have h1 := stepLexer_facts (runLexer (initLexer s) n) (by rw [hsrc]; exact hle)
    have hsrc1 : (runLexer (initLexer s) (n + 1)).source = s := by
      show (stepLexer (runLexer (initLexer s) n)).source = s
      rw [h1.1, hsrc]
    have hle1 : (runLexer (initLexer s) (n + 1)).cursor ≤ s.length := by
      show (stepLexer (runLexer (initLexer s) n)).cursor ≤ s.length
      have := h1.2.2
      rwa [hsrc] at this
    have h2 := stepLexer_facts (runLexer (initLexer s) (n + 1)) (by rw [hsrc1]; exact hle1)
    exact ⟨hsrc1, hle1, h2.2.1⟩

/-- C8: counterexample.  From cursor 0 of the one-byte buffer "a" (a state
satisfying `cursor ≤ length`), `skip 5` leaves the cursor at 5, past the
buffer end: the guard in `Lexer::skip` only covers the already-at-end
case and does not prevent overshoot. -/
theorem skip_overshoots_buffer_end :
    (skip (initLexer ['a']) 5).cursor = 5 ∧
      ¬ (skip (initLexer ['a']) 5).cursor ≤ (skip (initLexer ['a']) 5).source.length :=
  ⟨rfl, by decide⟩

/-- C8 (amended): `skip n` is a no-op exactly when the cursor equals the
buffer end; otherwise it adds exactly `n` to the cursor, with no guard
against moving past the end when `n` exceeds the remaining length. -/
theorem skip_cursor_spec (lx : Lexer) (n : Nat) :
    (lx.cursor = lx.source.length → skip lx n = lx) ∧
      (lx.cursor ≠ lx.source.length → (skip lx n).cursor = lx.cursor + n) := by
  constructor
  · intro h
    simp [skip, h]
  · intro h
    simp [skip, h]

/-- Witness for C8's amended theorem: at the end of "a" a `skip 3` is a
no-op; from cursor 0 of "ab" it lands at 3. -/
theorem skip_cursor_spec_witness :
    skip { source := ['a'], cursor := 1, value := SemValue.none } 3 =
      { source := ['a'], cursor := 1, value := SemValue.none } ∧
      (skip (initLexer ['a', 'b']) 3).cursor = 0 + 3 :=
  ⟨(skip_cursor_spec { source := ['a'], cursor := 1, value := SemValue.none } 3).1 (by decide),
   (skip_cursor_spec (initLexer ['a', 'b']) 3).2 (by decide)⟩

/-- C10: `next_token` writes the out-of-band semantic value only when it
returns an `Identifier`, `LiteralInt` or `LiteralFloat` token; for every
other returned kind the value member is left exactly as it was. -/
theorem value_unchanged_for_plain_tokens (lx : Lexer) (t : Token) (lx' : Lexer)
    (h : next_token lx = Except.ok (t, lx'))
    (h1 : t.kind ≠ TokenType.Identifier) (h2 : t.kind ≠ TokenType.LiteralInt)
    (h3 : t.kind ≠ TokenType.LiteralFloat) :
    lx'.value = lx.value := by
  have hv2 : (comment_skip (ws_skip lx)).value = lx.value := by
    rw [comment_skip_value, ws_skip_value]
  simp only [next_token] at h
  split at h
  · simp at h
    rw [← h.2]
    exact hv2
  · split at h
    · rename_i r hrb
      simp at h
      rw [h] at hrb
      have hst := run_basic_state (comment_skip (ws_skip lx)) basic_tokens t lx' hrb
      rw [hst.2.1, hv2]
    · rename_i hrb
      split at h
      · simp at h
        rcases lex_identifier_value (comment_skip (ws_skip lx))
            (comment_skip (ws_skip lx)).cursor with hid | hval
        · rw [h] at hid
          exact absurd hid h1
        · rw [h] at hval
          exact hval.trans hv2
      · split at h
        · rcases lex_number_kind _ _ _ _ h with hfl | hint
          · exact absurd hfl h3
          · exact absurd hint h2
        · simp at h
          rw [← h.2]
          exact hv2

/-- Witness for C10: lexing "(" from a state whose value member is the
integer 7 returns `ParameterListBegin` and leaves the value at 7. -/
theorem value_unchanged_for_plain_tokens_witness :
    ({ source := ['('], cursor := 1, value := SemValue.int 7 } : Lexer).value =
      ({ source := ['('], cursor := 0, value := SemValue.int 7 } : Lexer).value :=
  value_unchanged_for_plain_tokens
    { source := ['('], cursor := 0, value := SemValue.int 7 }
    { kind := TokenType.ParameterListBegin, start := 0, length := 1 }
    { source := ['('], cursor := 1, value := SemValue.int 7 }
    rfl (by decide) (by decide) (by decide)

/-- C4: counterexample.  The all-digit input "9223372036854775808"
(2^63) exceeds LLONG_MAX, so `std::stoll` throws out_of_range and the
`next_token` call aborts instead of returning a `LiteralInt` token. -/
theorem int_literal_overflow_aborts :
    next_token (initLexer
      ['9', '2', '2', '3', '3', '7', '2', '0', '3', '6', '8', '5', '4', '7', '7', '5', '8', '0', '8']) =
      Except.error () :=
  rfl

/-- C4 (amended): for every nonempty all-digit input whose value fits in a
signed 64-bit integer, `next_token` returns a `LiteralInt` token spanning
all the digits, with the semantic value equal to the integer value of the
digits. -/
theorem digit_input_yields_literal_int (s : List Char) (hne : s ≠ [])
    (hdig : ∀ c ∈ s, isdigit c = true)
    (hfit : digitsToNat s ≤ 9223372036854775807) :
    next_token (initLexer s) =
      Except.ok ({ kind := TokenType.LiteralInt, start := 0, length := s.length },
        { source := s, cursor := s.length, value := SemValue.int (Int.ofNat (digitsToNat s)) }) := by
  have hlen : 0 < s.length := List.length_pos.mpr hne
  have hAt : ∀ i, i < s.length → isdigit (charAt s i) = true := fun i hi =>
    hdig _ (charAt_mem s i hi)
  have h0 := hAt 0 hlen
  have hws : ws_skip (initLexer s) = initLexer s := by
    have hstep : skip_until s (fun i => !isspace (charAt s i)) 0 = 0 :=
      skip_until_eq s _ 0 0 (Nat.le_refl 0) (Nat.zero_le _)
        (fun i h1 h2 => absurd h2 (Nat.not_lt_zero i))
        (Or.inr (by simp [isdigit_not_isspace _ h0]))
    simp [ws_skip, initLexer, hstep]
  have hslash : charAt s 0 ≠ '/' := by
    intro he
    rw [he] at h0
    revert h0
    decide
  have hm1 : matchSV s 0 tokSlashSlash = false := matchSV_false_of_head s 0 '/' ['/'] hslash
  have hm2 : matchSV s 0 tokSlashStar = false := matchSV_false_of_head s 0 '/' ['*'] hslash
  have hcs : comment_skip (initLexer s) = initLexer s := by
    unfold comment_skip
    simp [initLexer, hm1, hm2]
  have hrb : run_basic (initLexer s) basic_tokens = Option.none := by
    apply run_basic_none_ident
    simp [initLexer, is_identifier_char, h0]
  have hfirst : is_first_identifier_char (charAt s 0) = false := by
    simp [is_first_identifier_char, isdigit_not_isalpha _ h0]
  have hskip : skip_until s (fun i => !isdigit (charAt s i)) 0 = s.length :=
    skip_until_eq s _ 0 s.length (Nat.zero_le _) (Nat.le_refl _)
      (fun i h1 h2 => by simp [hAt i h2]) (Or.inl rfl)
  have hdot : matchSV s s.length tokDot = false :=
    matchSV_end s s.length tokDot (Nat.le_refl _) (by simp [tokDot])
  simp only [next_token, hws, hcs, hrb]
  rw [if_neg (show ¬ ((initLexer s).cursor = (initLexer s).source.length) by
    simp [initLexer]; omega)]
  rw [if_neg (show ¬ (is_first_identifier_char (charAt (initLexer s).source (initLexer s).cursor) = true) by
    simp [initLexer, hfirst])]
  rw [if_pos (show isdigit (charAt (initLexer s).source (initLexer s).cursor) = true by
    simp [initLexer, h0])]
  simp only [lex_number, initLexer]
  rw [hskip]
  rw [if_neg (by simp [hdot])]
  simp [stoll, hfit]

/-- Witness for C4's amended theorem at the input "042", whose value is
42. -/
theorem digit_input_yields_literal_int_witness :
    next_token (initLexer ['0', '4', '2']) =
      Except.ok ({ kind := TokenType.LiteralInt, start := 0, length := 3 },
        { source := ['0', '4', '2'], cursor := 3, value := SemValue.int 42 }) :=
  digit_input_yields_literal_int ['0', '4', '2'] (by decide) (by decide) (by decide)

/-- C6: for every input that, after leading whitespace, begins with the
block-comment opener and contains no closing marker anywhere, `next_token`
scans to the end of the buffer without any error and returns
`EndOfFile`. -/
theorem unterminated_block_comment_yields_eof (ws rest src : List Char)
    (hsrc : src = ws ++ '/' :: '*' :: rest)
    (hws : ∀ c ∈ ws, isspace c = true)
    (hno : ∀ i, i < src.length → matchSV src i tokStarSlash = false) :
    next_token (initLexer src) =
      Except.ok ({ kind := TokenType.EndOfFile, start := src.length, length := 1 },
        { source := src, cursor := src.length, value := SemValue.none }) := by
  have hlen : src.length = ws.length + (rest.length + 2) := by
    rw [hsrc]
    simp
  have hdrop : src.drop ws.length = '/' :: '*' :: rest := by
    rw [hsrc]
    exact List.drop_left ws _
  have hwsP : skip_until src (fun i => !isspace (charAt src i)) 0 = ws.length := by
    apply skip_until_eq src _ 0 ws.length (Nat.zero_le _) (by omega)
    · intro i h1 h2
      have hc : charAt src i = charAt ws i := by
        rw [hsrc]
        exact charAt_append_left ws _ i h2
      simp [hc, hws _ (charAt_mem ws i h2)]
    · right
      have hc : charAt src ws.length = '/' := by
        rw [hsrc]
        exact charAt_append_right ws '/' _
      show (!isspace (charAt src ws.length)) = true
      rw [hc]
      decide
  have hcursorWs : ws_skip (initLexer src) = Lexer.mk src ws.length SemValue.none := by
    simp [ws_skip, initLexer, hwsP]
  have hm1 : matchSV src ws.length tokSlashSlash = false := by
    simp [matchSV, tokSlashSlash, hdrop]
  have hm2 : matchSV src ws.length tokSlashStar = true := by
    simp [matchSV, tokSlashStar, hdrop]
    omega
  have hbp : skip_until src (fun i => matchSV src i tokStarSlash) ws.length = src.length :=
    skip_until_eq src _ ws.length src.length (by omega) (Nat.le_refl _)
      (fun i h1 h2 => hno i h2) (Or.inl rfl)
  have hcs : comment_skip (Lexer.mk src ws.length SemValue.none) =
      Lexer.mk src src.length SemValue.none := by
    unfold comment_skip
    rw [if_neg (by simp [hm1]), if_pos (by simp [hm2])]
    unfold skip_beyond_sv
    simp only [hbp]
    simp [skip]
  simp only [next_token, hcursorWs, hcs]
  simp

/-- Witness for C6 at the input " /*a", an unterminated block comment
after one space. -/
theorem unterminated_block_comment_yields_eof_witness :
    next_token (initLexer [' ', '/', '*', 'a']) =
      Except.ok ({ kind := TokenType.EndOfFile, start := 4, length := 1 },
        { source := [' ', '/', '*', 'a'], cursor := 4, value := SemValue.none }) :=
  unterminated_block_comment_yields_eof [' '] ['a'] [' ', '/', '*', 'a'] rfl
    (by decide) (by decide)

/-- C9: the inputs "return", "break" and "continue" lex to the reserved
kinds Return, Break and Continue with the value member untouched, while
every other identifier-shaped input (a letter followed by letters or
digits) lexes to an `Identifier` token spanning the whole input whose
semantic value is exactly the consumed text. -/
theorem keywords_and_identifiers (s : List Char) (c0 : Char) (rest : List Char)
    (hs : s = c0 :: rest) (halpha : isalpha c0 = true)
    (hrest : ∀ d ∈ rest, is_identifier_char d = true)
    (hkr : s ≠ kwReturn) (hkb : s ≠ kwBreak) (hkc : s ≠ kwContinue) :
    next_token (initLexer s) =
      Except.ok ({ kind := TokenType.Identifier, start := 0, length := s.length },
        { source := s, cursor := s.length, value := SemValue.str s }) ∧
    next_token (initLexer kwReturn) =
      Except.ok ({ kind := TokenType.Return, start := 0, length := 6 },
        { source := kwReturn, cursor := 6, value := SemValue.none }) ∧
    next_token (initLexer kwBreak) =
      Except.ok ({ kind := TokenType.Break, start := 0, length := 5 },
        { source := kwBreak, cursor := 5, value := SemValue.none }) ∧
    next_token (initLexer kwContinue) =
      Except.ok ({ kind := TokenType.Continue, start := 0, length := 8 },
        { source := kwContinue, cursor := 8, value := SemValue.none }) := by
  refine ⟨?_, rfl, rfl, rfl⟩
  have hlen : 0 < s.length := by
    rw [hs]
    simp
  have hid : ∀ i, i < s.length → is_identifier_char (charAt s i) = true := by
    intro i hi
    rw [hs] at hi ⊢
    cases i with
    | zero =>
      simp [charAt, is_identifier_char, is_first_identifier_char, halpha]
    | succ m =>
      simp only [List.length_cons] at hi
      have hm : charAt (c0 :: rest) (m + 1) = charAt rest m := by
        simp [charAt, List.getD_cons_succ]
      rw [hm]
      exact hrest _ (charAt_mem rest m (by omega))
  have h0 : is_identifier_char (charAt s 0) = true := hid 0 hlen
  have h0alpha : is_first_identifier_char (charAt s 0) = true := by
    rw [hs]
    simp [charAt, is_first_identifier_char, halpha]
  have h0space : isspace (charAt s 0) = false := is_identifier_char_not_isspace _ h0
  have hslash : charAt s 0 ≠ '/' := by
    intro he
    rw [he] at h0
    revert h0
    decide
  have hws : ws_skip (initLexer s) = initLexer s := by
    have hstep : skip_until s (fun i => !isspace (charAt s i)) 0 = 0 :=
      skip_until_eq s _ 0 0 (Nat.le_refl 0) (Nat.zero_le _)
        (fun i h1 h2 => absurd h2 (Nat.not_lt_zero i))
        (Or.inr (by simp [h0space]))
    simp [ws_skip, initLexer, hstep]
  have hm1 : matchSV s 0 tokSlashSlash = false := matchSV_false_of_head s 0 '/' ['/'] hslash
  have hm2 : matchSV s 0 tokSlashStar = false := matchSV_false_of_head s 0 '/' ['*'] hslash
  have hcs : comment_skip (initLexer s) = initLexer s := by
    unfold comment_skip
    simp [initLexer, hm1, hm2]
  have hrb : run_basic (initLexer s) basic_tokens = Option.none := by
    apply run_basic_none_ident
    simp [initLexer]
    exact h0
  have hskip : skip_until s (fun i => !is_identifier_char (charAt s i)) 0 = s.length :=
    skip_until_eq s _ 0 s.length (Nat.zero_le _) (Nat.le_refl _)
      (fun i h1 h2 => by simp [hid i h2]) (Or.inl rfl)
  simp only [next_token, hws, hcs, hrb]
  rw [if_neg (show ¬ ((initLexer s).cursor = (initLexer s).source.length) by
    simp [initLexer]; omega)]
  rw [if_pos (show is_first_identifier_char (charAt (initLexer s).source (initLexer s).cursor) = true by
    simp [initLexer, h0alpha])]
  simp only [lex_identifier, initLexer]
  rw [hskip]
  simp [hkr, hkb, hkc]

/-- Witness for C9's identifier half at the input "x1". -/
theorem keywords_and_identifiers_witness :
    next_token (initLexer ['x', '1']) =
      Except.ok ({ kind := TokenType.Identifier, start := 0, length := 2 },
        { source := ['x', '1'], cursor := 2, value := SemValue.str ['x', '1'] }) ∧
    next_token (initLexer kwReturn) =
      Except.ok ({ kind := TokenType.Return, start := 0, length := 6 },
        { source := kwReturn, cursor := 6, value := SemValue.none }) ∧
    next_token (initLexer kwBreak) =
      Except.ok ({ kind := TokenType.Break, start := 0, length := 5 },
        { source := kwBreak, cursor := 5, value := SemValue.none }) ∧
    next_token (initLexer kwContinue) =
      Except.ok ({ kind := TokenType.Continue, start := 0, length := 8 },
        { source := kwContinue, cursor := 8, value := SemValue.none }) :=
  keywords_and_identifiers ['x', '1'] 'x' ['1'] rfl (by decide) (by decide)
    (by decide) (by decide) (by decide)
